import Mathlib

/-!
Verification development for the dcnnt file-transfer plugin
(`dcnnt/plugins/file_transfer.py`, class `FileTransferPlugin`).

The Python code is shallowly embedded:
* the filesystem is a finite tree `FSNode` (file contents are byte lists,
  bytes modelled as `Nat`);
* the glob filter `check_file_filter(path, glob)` (an application of the
  external `fnmatch.fnmatch` library to a fixed pattern) is abstracted as a
  function `String → Bool` carried in the share description;
* the transport is explicit: `read()` results are a list of
  `Option (List Nat)` (`none` models a `None` return, i.e. stream
  termination), `rpc_read()` results are a list of request method names;
* `rpc_send` / `send` calls are collected in the returned run records;
* Python integers are `Int` where sign matters (sizes, depths, indices).
-/

namespace FileTransfer

/-- Model of a filesystem entry: a regular file with its byte contents, or a
directory with its children in `os.listdir` enumeration order. -/
inductive FSNode where
  | file (name : String) (content : List Nat)
  | dir (name : String) (children : List FSNode)


/-- Tree node produced by the indexer: the Python dicts
`dict(name, node_type='directory', size=len(dir_list), children=dir_list)` and
`dict(name, node_type='file', size=os.path.getsize(path), index=index)`. -/
inductive TreeNode where
  | dirNode (name : String) (size : Nat) (children : List TreeNode)
  | fileNode (name : String) (size : Nat) (index : Nat)


/-- Embedding of `FileTransferPlugin.shared_directory_list`.
`filt` is `check_file_filter(·, filter_data)`; `idx` is the current state of
`self.shared_files_index`; the result pairs the produced node list `res` with
the updated index. Children are processed in list order, exactly as the
Python `for name in dir_list` loop does. -/
def shared_directory_list (filt : String → Bool) (max_deep : Int) :
    Int → String → List FSNode → List String → List TreeNode × List String
  | _, _, [], idx => ([], idx)
  | cd, dp, FSNode.dir name sub :: rest, idx =>
    if cd < max_deep ∧ max_deep > 0 then
      let r1 := shared_directory_list filt max_deep (cd + 1) (dp ++ "/" ++ name) sub idx
      let r2 := shared_directory_list filt max_deep cd dp rest r1.2
      (TreeNode.dirNode name r1.1.length r1.1 :: r2.1, r2.2)
    else
      shared_directory_list filt max_deep cd dp rest idx
  | cd, dp, FSNode.file name content :: rest, idx =>
    let path := dp ++ "/" ++ name
    if filt path then
      let idx1 := idx ++ [path]
      let r2 := shared_directory_list filt max_deep cd dp rest idx1
      (TreeNode.fileNode name content.length (idx1.length - 1) :: r2.1, r2.2)
    else
      shared_directory_list filt max_deep cd dp rest idx

/-- Embedding of Python `os.path.basename`: the part of the path after the
last slash (empty if the path ends in a slash). -/
def basename (p : String) : String := ((p.splitOn "/").getLast?).getD ""

/-- One entry of the `shared_dirs` configuration list, fused with the state
of the filesystem at the moment `shared_files_info` runs:
* `path`, `name` (nullable) and `deep` come from the config schema
  (`shared_dir['path']`, `shared_dir['name']`, `shared_dir.get('deep', 0)`
  models a possibly missing key as `Option Int`);
* `filt` is `check_file_filter(·, shared_dir['glob'])`;
* `rootDir` is `some children` when `os.path.isdir(path)` holds (with the
  directory's entries), `none` otherwise. -/
structure Share where
  path : String
  name : Option String
  filt : String → Bool
  deep : Option Int
  rootDir : Option (List FSNode)

/-- The `names` bookkeeping dict of `shared_files_info`, as a function. -/
def NamesMap : Type := String → Option Nat

/-- Name resolution step of `shared_files_info` (lines 63-69 of the source):
default the name to the basename, then consult and update the `names` dict. -/
def resolve_name (names : NamesMap) (path : String) (name : Option String) :
    String × NamesMap :=
  let n := name.getD (basename path)
  match names n with
  | some k =>
    (n ++ " (" ++ toString (k + 1) ++ ")", fun s => if s = n then some (k + 1) else names s)
  | none => (n, fun s => if s = n then some 0 else names s)

/-- Loop body of `shared_files_info` over the configured shares, threading the
`names` dict and the `shared_files_index` state. A share whose root is not an
existing directory is skipped (only a warning is logged). -/
def shared_files_info_loop :
    List Share → NamesMap → List String → List TreeNode × List String
  | [], _, idx => ([], idx)
  | sh :: rest, names, idx =>
    match sh.rootDir with
    | none => shared_files_info_loop rest names idx
    | some children =>
      let r := resolve_name names sh.path sh.name
      let r1 := shared_directory_list sh.filt (sh.deep.getD 0) 1 sh.path children idx
      let r2 := shared_files_info_loop rest r.2 r1.2
      (TreeNode.dirNode r.1 r1.1.length r1.1 :: r2.1, r2.2)

/-- Embedding of `FileTransferPlugin.shared_files_info`: clear
`shared_files_index`, then process every configured share. Returns the tree
and the final index. -/
def shared_files_info (shares : List Share) : List TreeNode × List String :=
  shared_files_info_loop shares (fun _ => none) []

/-- Chunk size constant `FileTransferPlugin.PART`. -/
def PART : Nat := 65532

/-- Chunking loop of `handle_download`: `f.read(PART)` until a zero-length
read. Produces the sequence of chunks passed to `self.send`. -/
def download_chunks (content : List Nat) : List (List Nat) :=
  if h : content = [] then []
  else content.take PART :: download_chunks (content.drop PART)
termination_by content.length
decreasing_by
  have hl : 0 < content.length := List.length_pos.mpr h
  simp [List.length_drop, PART]
  omega

/-- Result of one `handle_download` call: the single `rpc_send` response (as
a `(code, message)` pair; `none` when the `KeyError` branch only logs), and
the raw chunks passed to `self.send`. -/
structure DownloadRun where
  response : Option (Nat × String)
  chunks : List (List Nat)
deriving DecidableEq

/-- Embedding of `FileTransferPlugin.handle_download`.
* `idx` is the current `shared_files_index`;
* `fs path = some content` models `os.path.isfile(path)` being true with
  `os.path.getsize(path) = content.length`;
* `index` / `size` are `request.params['index']` / `request.params['size']`,
  `none` when the key is missing (Python raises `KeyError`, which the handler
  catches and merely logs). -/
def handle_download (idx : List String) (fs : String → Option (List Nat))
    (index : Option Int) (size : Option Int) : DownloadRun :=
  match index, size with
  | some i, some sz =>
    if 0 ≤ i ∧ i < (idx.length : Int) then
      let path := idx.getD i.toNat ""
      match fs path with
      | none => ⟨some (2, "No such file"), []⟩
      | some content =>
        if (content.length : Int) ≠ sz then ⟨some (2, "Size mismatch"), []⟩
        else ⟨some (0, "OK"), download_chunks content⟩
    else ⟨some (1, "No such index: " ++ toString i), []⟩
  | _, _ => ⟨none, []⟩

/-- Terminal state of the `handle_upload` receive loop.
`completed`: `wrote >= size`, normal exit. `canceled`: empty chunk followed
by a `cancel` request. `aborted`: `self.read()` returned `None`. `blocked`:
the modelled transport ran out of events while the Python loop would still be
waiting on a blocking read (no further behaviour is modelled). -/
inductive UploadOutcome where
  | completed
  | canceled
  | aborted
  | blocked
deriving DecidableEq

/-- State when the `handle_upload` receive loop stops: outcome, bytes counted
in `wrote`, bytes written to the destination file, and the unconsumed
transport events. -/
structure UploadLoopState where
  outcome : UploadOutcome
  wrote : Nat
  file : List Nat
  readsLeft : List (Option (List Nat))
  reqsLeft : List String
deriving DecidableEq

/-- Receive loop of `handle_upload` (`while wrote < size:` ...).
`reads` is the stream of `self.read()` results (`none` = Python `None`);
`reqs` is the stream of `self.rpc_read()` request methods, consulted only
after a zero-length chunk. A non-`cancel` request after an empty chunk falls
through: the loop continues with `wrote += 0`. -/
def upload_loop (size : Int) :
    List (Option (List Nat)) → List String → Nat → List Nat → UploadLoopState
  | reads, reqs, wrote, file =>
    if (wrote : Int) < size then
      match reads with
      | [] => ⟨UploadOutcome.blocked, wrote, file, [], reqs⟩
      | none :: rds => ⟨UploadOutcome.aborted, wrote, file, rds, reqs⟩
      | some buf :: rds =>
        if buf.length = 0 then
          match reqs with
          | [] => ⟨UploadOutcome.blocked, wrote, file, rds, []⟩
          | m :: rqs =>
            if m = "cancel" then ⟨UploadOutcome.canceled, wrote, file, rds, rqs⟩
            else upload_loop size rds rqs (wrote + buf.length) (file ++ buf)
        else upload_loop size rds reqs (wrote + buf.length) (file ++ buf)
    else ⟨UploadOutcome.completed, wrote, file, reads, reqs⟩

/-- Observable effects of one `handle_upload` call:
* `initialAck`: whether the leading `code=0, OK` response was sent;
* `finalResponse`: the trailing `rpc_send` (`none` for abort / block / the
  `KeyError` log-only branch);
* `file`: contents of `download_directory/name` (`none` when the file was
  never opened, `some bytes` otherwise — `open(path, 'wb')` truncates);
* the unconsumed transport events. -/
structure UploadRun where
  initialAck : Bool
  finalResponse : Option (Nat × String)
  file : Option (List Nat)
  readsLeft : List (Option (List Nat))
  reqsLeft : List String
deriving DecidableEq

/-- Embedding of `FileTransferPlugin.handle_upload`. `name` / `size` are
`request.params['name']` / `request.params['size']` (`none` = missing key:
the `KeyError` handler logs a warning and nothing else happens). -/
def handle_upload (name : Option String) (size : Option Int)
    (reads : List (Option (List Nat))) (reqs : List String) : UploadRun :=
  match name, size with
  | some _, some sz =>
    let st := upload_loop sz reads reqs 0 []
    match st.outcome with
    | UploadOutcome.completed =>
      ⟨true, some (0, "OK"), some st.file, st.readsLeft, st.reqsLeft⟩
    | UploadOutcome.canceled =>
      ⟨true, some (1, "Canceled"), some st.file, st.readsLeft, st.reqsLeft⟩
    | UploadOutcome.aborted =>
      ⟨true, none, some st.file, st.readsLeft, st.reqsLeft⟩
    | UploadOutcome.blocked =>
      ⟨true, none, some st.file, st.readsLeft, st.reqsLeft⟩
  | _, _ => ⟨false, none, none, reads, reqs⟩

/-! Observers used to state the properties. -/

mutual

/-- Indices of the `fileNode` leaves of one tree node, leftmost first. -/
def fileLeafIndices : TreeNode → List Nat
  | TreeNode.fileNode _ _ i => [i]
  | TreeNode.dirNode _ _ cs => fileLeafIndicesForest cs

/-- Indices of the `fileNode` leaves of a forest, leftmost first. -/
def fileLeafIndicesForest : List TreeNode → List Nat
  | [] => []
  | t :: ts => fileLeafIndices t ++ fileLeafIndicesForest ts

end

mutual

/-- Number of `fileNode` leaves of one tree node. -/
def fileLeafCount : TreeNode → Nat
  | TreeNode.fileNode _ _ _ => 1
  | TreeNode.dirNode _ _ cs => fileLeafCountForest cs

/-- Number of `fileNode` leaves of a forest. -/
def fileLeafCountForest : List TreeNode → Nat
  | [] => 0
  | t :: ts => fileLeafCount t + fileLeafCountForest ts

end

/-- Whether a tree node is a `dirNode`. -/
def TreeNode.isDirNode : TreeNode → Bool
  | TreeNode.dirNode _ _ _ => true
  | TreeNode.fileNode _ _ _ => false

/-- Display name of a tree node. -/
def TreeNode.nodeName : TreeNode → String
  | TreeNode.dirNode n _ _ => n
  | TreeNode.fileNode n _ _ => n

/-- The pre-disambiguation display name of a share: `name` if configured,
otherwise the basename of the root path. -/
def resolvedName (sh : Share) : String := (sh.name).getD (basename sh.path)

/-- How many of the given shares have an existing root directory and resolve
to the display name `n` (only those enter the `names` dict). -/
def countResolved (n : String) (shs : List Share) : Nat :=
  (shs.filter (fun s => s.rootDir.isSome && decide (resolvedName s = n))).length

/-- The display name the catalog emits for share `sh` given the shares
already processed before it in the same call. -/
def emittedName (prior : List Share) (sh : Share) : String :=
  let n := resolvedName sh
  match countResolved n prior with
  | 0 => n
  | Nat.succ k => n ++ " (" ++ toString (k + 1) ++ ")"

/-- The sequence of display names the catalog emits for a list of shares,
given an already-processed prefix: skipped shares (missing root) emit no
node but still advance the prefix. -/
def emittedNames (prior : List Share) : List Share → List String
  | [] => []
  | sh :: rest =>
    match sh.rootDir with
    | none => emittedNames (prior ++ [sh]) rest
    | some _ => emittedName prior sh :: emittedNames (prior ++ [sh]) rest

/-- Total byte length of a list of chunks. -/
def totalLen (bufs : List (List Nat)) : Nat := (bufs.map List.length).sum

/-- Number of chunks the upload receive loop consumes, starting from `wrote`
bytes already counted: one chunk per iteration while `wrote < size`. -/
def chunksNeeded (size : Int) (wrote : Nat) : List (List Nat) → Nat
  | [] => 0
  | b :: bs =>
    if (wrote : Int) < size then chunksNeeded size (wrote + b.length) bs + 1 else 0

/-! Step lemmas for the upload receive loop. -/

/-- When enough bytes are already counted, the loop exits at once. -/
theorem upload_loop_exit (size : Int) (reads : List (Option (List Nat)))
    (reqs : List String) (wrote : Nat) (file : List Nat)
    (hw : ¬ (wrote : Int) < size) :
    upload_loop size reads reqs wrote file
      = ⟨UploadOutcome.completed, wrote, file, reads, reqs⟩ := by
  rw [upload_loop.eq_def]
  simp [hw]

/-- A non-empty chunk is appended to the file and counted; no request is
consumed. -/
theorem upload_loop_data (size : Int) (buf : List Nat)
    (rds : List (Option (List Nat))) (reqs : List String) (wrote : Nat)
    (file : List Nat) (hb : buf ≠ []) (hw : (wrote : Int) < size) :
    upload_loop size (some buf :: rds) reqs wrote file
      = upload_loop size rds reqs (wrote + buf.length) (file ++ buf) := by
  rw [upload_loop.eq_def]
  simp [hw, List.length_eq_zero, hb]

/-- An empty chunk followed by a `cancel` request ends the loop. -/
theorem upload_loop_cancel (size : Int) (rds : List (Option (List Nat)))
    (rqs : List String) (wrote : Nat) (file : List Nat)
    (hw : (wrote : Int) < size) :
    upload_loop size (some [] :: rds) ("cancel" :: rqs) wrote file
      = ⟨UploadOutcome.canceled, wrote, file, rds, rqs⟩ := by
  rw [upload_loop.eq_def]
  simp [hw]

/-- An empty chunk followed by any other request is dropped and the loop
goes on unchanged. -/
theorem upload_loop_empty_other (size : Int) (rds : List (Option (List Nat)))
    (m : String) (rqs : List String) (wrote : Nat) (file : List Nat)
    (hm : m ≠ "cancel") (hw : (wrote : Int) < size) :
    upload_loop size (some [] :: rds) (m :: rqs) wrote file
      = upload_loop size rds rqs wrote file := by
  rw [upload_loop.eq_def]
  simp [hw, hm]

/-- A `None` read aborts the loop. -/
theorem upload_loop_abort (size : Int) (rds : List (Option (List Nat)))
    (reqs : List String) (wrote : Nat) (file : List Nat)
    (hw : (wrote : Int) < size) :
    upload_loop size (none :: rds) reqs wrote file
      = ⟨UploadOutcome.aborted, wrote, file, rds, reqs⟩ := by
  rw [upload_loop.eq_def]
  simp [hw]

/-- Feeding a run of non-empty chunks whose total stays below `size` just
accumulates them: no request is consumed and the loop keeps running. -/
theorem upload_loop_feed (size : Int) (bufs : List (List Nat)) :
    ∀ rds reqs wrote file, (∀ b ∈ bufs, b ≠ []) →
      ((wrote + totalLen bufs : Nat) : Int) < size →
      upload_loop size (bufs.map some ++ rds) reqs wrote file
        = upload_loop size rds reqs (wrote + totalLen bufs) (file ++ bufs.flatten) := by
  induction bufs with
  | nil => intro rds reqs wrote file _ _; simp [totalLen]
  | cons b bs ih =>
    intro rds reqs wrote file hne hlt
    have htot : totalLen (b :: bs) = b.length + totalLen bs := by
      simp [totalLen]
    have hw : (wrote : Int) < size := by
      have : (wrote : Int) ≤ ((wrote + totalLen (b :: bs) : Nat) : Int) := by
        push_cast
        omega
      omega
    have hb : b ≠ [] := hne b (List.mem_cons_self b bs)
    rw [List.map_cons, List.cons_append,
      upload_loop_data size b (bs.map some ++ rds) reqs wrote file hb hw,
      ih rds reqs (wrote + b.length) (file ++ b)
        (fun x hx => hne x (List.mem_cons_of_mem b hx)) (by push_cast at hlt ⊢; omega)]
    have h1 : wrote + b.length + totalLen bs = wrote + totalLen (b :: bs) := by
      rw [htot]; omega
    have h2 : file ++ b ++ bs.flatten = file ++ (b :: bs).flatten := by
      simp
    rw [h1, h2]

/-- With only non-empty chunks on the wire and enough total data, the loop
completes: it consumes exactly `chunksNeeded` chunks and stops. -/
theorem upload_loop_complete (size : Int) (bufs : List (List Nat)) :
    ∀ reqs wrote file, (∀ b ∈ bufs, b ≠ []) →
      size ≤ ((wrote + totalLen bufs : Nat) : Int) →
      upload_loop size (bufs.map some) reqs wrote file
        = ⟨UploadOutcome.completed,
           wrote + totalLen (bufs.take (chunksNeeded size wrote bufs)),
           file ++ (bufs.take (chunksNeeded size wrote bufs)).flatten,
           (bufs.drop (chunksNeeded size wrote bufs)).map some, reqs⟩ := by
  induction bufs with
  | nil =>
    intro reqs wrote file _ hge
    have hw : ¬ (wrote : Int) < size := by
      simp [totalLen] at hge
      omega
    simp [upload_loop_exit size [] reqs wrote file hw, chunksNeeded, totalLen]
  | cons b bs ih =>
    intro reqs wrote file hne hge
    by_cases hw : (wrote : Int) < size
    · have hb : b ≠ [] := hne b (List.mem_cons_self b bs)
      have hk : chunksNeeded size wrote (b :: bs)
          = chunksNeeded size (wrote + b.length) bs + 1 := by
        simp [chunksNeeded, hw]
      rw [List.map_cons,
        upload_loop_data size b (bs.map some) reqs wrote file hb hw,
        ih reqs (wrote + b.length) (file ++ b)
          (fun x hx => hne x (List.mem_cons_of_mem b hx))
          (by simp [totalLen] at hge ⊢; omega),
        hk]
      have h1 : wrote + b.length
            + totalLen (bs.take (chunksNeeded size (wrote + b.length) bs))
          = wrote + totalLen ((b :: bs).take
              (chunksNeeded size (wrote + b.length) bs + 1)) := by
        simp [totalLen]
        omega
      have h2 : file ++ b
            ++ (bs.take (chunksNeeded size (wrote + b.length) bs)).flatten
          = file ++ ((b :: bs).take
              (chunksNeeded size (wrote + b.length) bs + 1)).flatten := by
        simp
      rw [h1, h2]
      simp
    · have hk : chunksNeeded size wrote (b :: bs) = 0 := by
        simp [chunksNeeded, hw]
      rw [upload_loop_exit size ((b :: bs).map some) reqs wrote file hw, hk]
      simp [totalLen]

/-- Every proper prefix of the consumed chunks still falls short of `size`:
the loop never keeps reading once the declared size is reached. -/
theorem chunksNeeded_partial_lt (size : Int) :
    ∀ bufs : List (List Nat), ∀ wrote, ∀ j < chunksNeeded size wrote bufs,
      ((wrote + totalLen (bufs.take j) : Nat) : Int) < size := by
  intro bufs
  induction bufs with
  | nil => intro wrote j hj; simp [chunksNeeded] at hj
  | cons b bs ih =>
    intro wrote j hj
    by_cases hw : (wrote : Int) < size
    · match j with
      | 0 => simpa [totalLen] using hw
      | Nat.succ j' =>
        have hj' : j' < chunksNeeded size (wrote + b.length) bs := by
          simp [chunksNeeded, hw] at hj
          omega
        have := ih (wrote + b.length) j' hj'
        simp [totalLen] at this ⊢
        omega
    · simp [chunksNeeded, hw] at hj

/-- The loop never consumes more chunks than are available. -/
theorem chunksNeeded_le_length (size : Int) :
    ∀ bufs : List (List Nat), ∀ wrote,
      chunksNeeded size wrote bufs ≤ bufs.length := by
  intro bufs
  induction bufs with
  | nil => intro wrote; simp [chunksNeeded]
  | cons b bs ih =>
    intro wrote
    by_cases hw : (wrote : Int) < size
    · simp [chunksNeeded, hw]
      exact ih (wrote + b.length)
    · simp [chunksNeeded, hw]

/-- Once the declared size is covered by the available data, the consumed
chunks alone already cover it. -/
theorem chunksNeeded_total_ge (size : Int) :
    ∀ bufs : List (List Nat), ∀ wrote,
      size ≤ ((wrote + totalLen bufs : Nat) : Int) →
      size ≤ ((wrote + totalLen (bufs.take (chunksNeeded size wrote bufs)) : Nat) : Int) := by
  intro bufs
  induction bufs with
  | nil => intro wrote h; simpa using h
  | cons b bs ih =>
    intro wrote h
    by_cases hw : (wrote : Int) < size
    · have hk : chunksNeeded size wrote (b :: bs)
          = chunksNeeded size (wrote + b.length) bs + 1 := by
        simp [chunksNeeded, hw]
      have := ih (wrote + b.length) (by simp [totalLen] at h ⊢; omega)
      rw [hk]
      simp [totalLen] at this ⊢
      omega
    · have hk : chunksNeeded size wrote (b :: bs) = 0 := by
        simp [chunksNeeded, hw]
      rw [hk]
      simp [totalLen]
      omega

/-- Total length of a prefix extended by one more element. -/
theorem totalLen_take_succ (l : List (List Nat)) (j : Nat) (hj : j < l.length) :
    totalLen (l.take (j + 1)) = totalLen (l.take j) + (l.getD j []).length := by
  have h1 : l.take (j + 1) = l.take j ++ [l.getD j []] := by
    rw [List.take_succ]
    simp [List.getD, List.getElem?_eq_getElem hj]
  rw [h1]
  simp [totalLen]

/-- C10: an upload request carrying both `name` and `size` where the
declared size is non-positive sends the initial `code=0, OK` acknowledgment,
truncates the destination file to empty, reads no chunk from the transport,
and immediately sends the final `code=0, OK` response. -/
theorem C10_upload_nonpositive_size (name : String) (size : Int)
    (reads : List (Option (List Nat))) (reqs : List String) (hsz : size ≤ 0) :
    handle_upload (some name) (some size) reads reqs
      = ⟨true, some (0, "OK"), some [], reads, reqs⟩ := by
  have hw : ¬ ((0 : Nat) : Int) < size := by
    push_cast
    omega
  simp [handle_upload, upload_loop_exit size reads reqs 0 [] hw]

/-- Witness for C10 at a concrete negative size. -/
theorem C10_upload_nonpositive_size_witness :
    handle_upload (some "a.txt") (some (-2)) [some [1]] ["list"]
      = ⟨true, some (0, "OK"), some [], [some [1]], ["list"]⟩ :=
  C10_upload_nonpositive_size "a.txt" (-2) [some [1]] ["list"] (by decide)

/-- C7: mid-upload, after non-empty chunks totalling fewer bytes than the
declared size, a zero-length chunk followed by a `cancel` request makes the
handler close the file, respond `code=1, Canceled`, and stop; the partial
file on disk holds exactly the bytes received so far. -/
theorem C7_upload_cancel (name : String) (size : Int) (bufs : List (List Nat))
    (rds : List (Option (List Nat))) (rqs : List String)
    (hne : ∀ b ∈ bufs, b ≠ []) (hlt : ((totalLen bufs : Nat) : Int) < size) :
    handle_upload (some name) (some size) (bufs.map some ++ (some [] :: rds))
        ("cancel" :: rqs)
      = ⟨true, some (1, "Canceled"), some bufs.flatten, rds, rqs⟩ := by
  have hlt0 : ((0 + totalLen bufs : Nat) : Int) < size := by simpa using hlt
  rw [handle_upload,
    upload_loop_feed size bufs (some [] :: rds) ("cancel" :: rqs) 0 [] hne hlt0]
  simp only [Nat.zero_add, List.nil_append]
  rw [upload_loop_cancel size rds rqs (totalLen bufs) bufs.flatten hlt]

/-- Witness for C7: the spec's example — 4 bytes, an empty chunk, then a
`cancel` request leave a 4-byte partial file and a `Canceled` response. -/
theorem C7_upload_cancel_witness :
    handle_upload (some "a.txt") (some 10) [some [1, 2, 3, 4], some []] ["cancel"]
      = ⟨true, some (1, "Canceled"), some [1, 2, 3, 4], [], []⟩ :=
  C7_upload_cancel "a.txt" 10 [[1, 2, 3, 4]] [] [] (by decide) (by decide)

/-- C4: counterexample — with declared size 4, a zero-length chunk followed
by a request whose method is `"list"` (not `"cancel"`) does not abort the
transfer: the loop keeps accepting data, takes the next 4-byte chunk and
finishes normally with `code=0, OK`. -/
theorem C4_counterexample :
    handle_upload (some "a.txt") (some 4) [some [], some [9, 9, 9, 9]] ["list"]
      = ⟨true, some (0, "OK"), some [9, 9, 9, 9], [], []⟩ := by
  simp [handle_upload, upload_loop]

/-- C4 (amended): when a zero-length chunk is received mid-upload and the
next RPC request has a method other than `cancel`, that request is consumed
and silently discarded and the receive loop continues accepting data
exactly as before (no log entry, no abort). -/
theorem C4_noncancel_request_ignored (size : Int)
    (rds : List (Option (List Nat))) (m : String) (rqs : List String)
    (wrote : Nat) (file : List Nat) (hm : m ≠ "cancel")
    (hw : (wrote : Int) < size) :
    upload_loop size (some [] :: rds) (m :: rqs) wrote file
      = upload_loop size rds rqs wrote file :=
  upload_loop_empty_other size rds m rqs wrote file hm hw

/-- Witness for the amended C4 at a concrete state. -/
theorem C4_noncancel_request_ignored_witness :
    upload_loop 4 [some []] ["list"] 0 [] = upload_loop 4 [] [] 0 [] :=
  C4_noncancel_request_ignored 4 [] "list" [] 0 [] (by decide) (by decide)

/-- C2: counterexample — an upload request whose params lack `name` (with
`size` present) draws no response at all: the `KeyError` handler only logs,
so no `code=1` reply is ever sent to the client. -/
theorem C2_counterexample :
    handle_upload none (some 4) [some [1]] []
      = ⟨false, none, none, [some [1]], []⟩ := rfl

/-- C2 (amended): a download or upload request missing a required parameter
key makes the handler catch the `KeyError`, log a warning and send no
response at all; the handler returns normally, so the session continues
with the next request. -/
theorem C2_missing_params_no_response (reads : List (Option (List Nat)))
    (reqs : List String) (idx : List String)
    (fs : String → Option (List Nat)) (nm : Option String)
    (upsz dlix dlsz : Option Int) :
    (nm = none ∨ upsz = none →
        handle_upload nm upsz reads reqs = ⟨false, none, none, reads, reqs⟩)
  ∧ (dlix = none ∨ dlsz = none →
        handle_download idx fs dlix dlsz = ⟨none, []⟩) := by
  constructor
  · rintro (rfl | rfl)
    · cases upsz <;> rfl
    · cases nm <;> rfl
  · rintro (rfl | rfl)
    · cases dlsz <;> rfl
    · cases dlix <;> rfl

/-- Witness for the amended C2 at concrete missing keys. -/
theorem C2_missing_params_no_response_witness :
    handle_upload none (some 3) [] [] = ⟨false, none, none, [], []⟩
  ∧ handle_download ["/p"] (fun _ => none) (some 0) none = ⟨none, []⟩ :=
  ⟨(C2_missing_params_no_response [] [] ["/p"] (fun _ => none) none (some 3)
      (some 0) none).1 (Or.inl rfl),
   (C2_missing_params_no_response [] [] ["/p"] (fun _ => none) none (some 3)
      (some 0) none).2 (Or.inr rfl)⟩

/-- C8: with only non-empty chunks arriving (so the stream never terminates
early and no cancel check ever fires) and a positive declared size that the
data eventually covers, the receive loop stops exactly when the received
total reaches the declared size: the final response is `code=0, OK`, the
file holds exactly the consumed chunks, the received total is at least the
declared size, every proper prefix of the consumed chunks falls short of
it, and the overshoot is bounded by the final chunk's length. -/
theorem C8_upload_completion (name : String) (size : Int)
    (bufs : List (List Nat)) (reqs : List String)
    (hne : ∀ b ∈ bufs, b ≠ []) ( _hpos : 0 < size)
    (hsum : size ≤ ((totalLen bufs : Nat) : Int)) :
    handle_upload (some name) (some size) (bufs.map some) reqs
      = ⟨true, some (0, "OK"),
         some (bufs.take (chunksNeeded size 0 bufs)).flatten,
         (bufs.drop (chunksNeeded size 0 bufs)).map some, reqs⟩
  ∧ size ≤ ((totalLen (bufs.take (chunksNeeded size 0 bufs)) : Nat) : Int)
  ∧ (∀ j < chunksNeeded size 0 bufs,
      ((totalLen (bufs.take j) : Nat) : Int) < size)
  ∧ (∀ j, chunksNeeded size 0 bufs = j + 1 →
      ((totalLen (bufs.take (j + 1)) : Nat) : Int)
        ≤ size + ((bufs.getD j []).length : Int)) := by
  have hsum0 : size ≤ ((0 + totalLen bufs : Nat) : Int) := by simpa using hsum
  refine ⟨?_, ?_, ?_, ?_⟩
  · rw [handle_upload, upload_loop_complete size bufs reqs 0 [] hne hsum0]
    simp
  · have := chunksNeeded_total_ge size bufs 0 hsum0
    simpa using this
  · intro j hj
    have := chunksNeeded_partial_lt size bufs 0 j hj
    simpa using this
  · intro j hj
    have hjlt : j < chunksNeeded size 0 bufs := by omega
    have hjlen : j < bufs.length := by
      have := chunksNeeded_le_length size bufs 0
      omega
    have hpart := chunksNeeded_partial_lt size bufs 0 j hjlt
    rw [totalLen_take_succ bufs j hjlen]
    simp at hpart ⊢
    omega

/-- Witness for C8: two chunks of 2 and 3 bytes against declared size 4
complete with all 5 bytes on disk. -/
theorem C8_upload_completion_witness :
    handle_upload (some "a.txt") (some 4) [some [1, 2], some [3, 4, 5]] ["x"]
      = ⟨true, some (0, "OK"), some [1, 2, 3, 4, 5], [], ["x"]⟩ :=
  (C8_upload_completion "a.txt" 4 [[1, 2], [3, 4, 5]] ["x"] (by decide)
    (by decide) (by decide)).1

/-- The chunks of a file concatenate back to the file. -/
theorem download_chunks_flatten (content : List Nat) :
    (download_chunks content).flatten = content := by
  induction content using download_chunks.induct with
  | case1 => simp [download_chunks]
  | case2 x hne ih =>
    rw [download_chunks.eq_def]
    simp [hne, ih]

/-- Every emitted chunk is at most `PART` bytes and never empty. -/
theorem download_chunks_bounded (content : List Nat) :
    ∀ c ∈ download_chunks content, c.length ≤ PART ∧ c ≠ [] := by
  induction content using download_chunks.induct with
  | case1 => simp [download_chunks]
  | case2 x hne ih =>
    rw [download_chunks.eq_def, dif_neg hne]
    intro c hc
    rcases List.mem_cons.mp hc with rfl | hc
    · refine ⟨List.length_take_le PART x, ?_⟩
      have hp : PART ≠ 0 := by decide
      simp [List.take_eq_nil_iff, hne, hp]
    · exact ih c hc

/-- C3: the three download validation failures, in checking order: a bad
index draws `code=1, No such index: <index>`; a valid index whose path is no
longer a file draws `code=2, No such file`; an existing file whose size
differs from the claimed size draws `code=2, Size mismatch`. In each case
exactly that one response is sent and no file bytes are streamed. -/
theorem C3_download_validation (idx : List String)
    (fs : String → Option (List Nat)) (i sz : Int) :
    (¬ (0 ≤ i ∧ i < (idx.length : Int)) →
        handle_download idx fs (some i) (some sz)
          = ⟨some (1, "No such index: " ++ toString i), []⟩)
  ∧ ((0 ≤ i ∧ i < (idx.length : Int)) → fs (idx.getD i.toNat "") = none →
        handle_download idx fs (some i) (some sz)
          = ⟨some (2, "No such file"), []⟩)
  ∧ (∀ content, (0 ≤ i ∧ i < (idx.length : Int)) →
        fs (idx.getD i.toNat "") = some content → (content.length : Int) ≠ sz →
        handle_download idx fs (some i) (some sz)
          = ⟨some (2, "Size mismatch"), []⟩) := by
  refine ⟨?_, ?_, ?_⟩
  · intro h
    simp only [handle_download]
    rw [if_neg h]
  · intro h hf
    simp only [handle_download]
    rw [if_pos h, hf]
  · intro content h hf hsz
    simp only [handle_download]
    rw [if_pos h, hf]
    exact if_pos hsz

/-- Witness for C3: all three rejections at concrete inputs. -/
theorem C3_download_validation_witness :
    handle_download ["/a"] (fun _ => none) (some (-1)) (some 0)
      = ⟨some (1, "No such index: " ++ toString (-1 : Int)), []⟩
  ∧ handle_download ["/a"] (fun _ => none) (some 0) (some 5)
      = ⟨some (2, "No such file"), []⟩
  ∧ handle_download ["/a"] (fun _ => some [1, 2]) (some 0) (some 5)
      = ⟨some (2, "Size mismatch"), []⟩ :=
  ⟨(C3_download_validation ["/a"] (fun _ => none) (-1) 0).1 (by decide),
   (C3_download_validation ["/a"] (fun _ => none) 0 5).2.1 (by decide) rfl,
   (C3_download_validation ["/a"] (fun _ => some [1, 2]) 0 5).2.2 [1, 2]
     (by decide) rfl (by decide)⟩

/-- C6: a download that passes validation first sends `code=0, OK`, then
streams the file's bytes as the chunk sequence `download_chunks content`:
the chunks concatenate to exactly the file's contents, their lengths sum to
the file's byte length, each is at most `PART = 65532` bytes, and none is
empty (in particular there is no end-of-file marker chunk after the last
data chunk). -/
theorem C6_download_stream (idx : List String)
    (fs : String → Option (List Nat)) (i sz : Int) (content : List Nat)
    (hrange : 0 ≤ i ∧ i < (idx.length : Int))
    (hfs : fs (idx.getD i.toNat "") = some content)
    (hsz : (content.length : Int) = sz) :
    handle_download idx fs (some i) (some sz)
      = ⟨some (0, "OK"), download_chunks content⟩
  ∧ (download_chunks content).flatten = content
  ∧ ((download_chunks content).map List.length).sum = content.length
  ∧ (∀ c ∈ download_chunks content, c.length ≤ PART ∧ c ≠ []) := by
  refine ⟨?_, download_chunks_flatten content, ?_, download_chunks_bounded content⟩
  · simp only [handle_download]
    rw [if_pos hrange, hfs]
    exact if_neg (not_not_intro hsz)
  · rw [← List.length_flatten, download_chunks_flatten]

/-- Witness for C6 at a concrete three-byte file. -/
theorem C6_download_stream_witness :
    handle_download ["/f"] (fun _ => some [1, 2, 3]) (some 0) (some 3)
      = ⟨some (0, "OK"), download_chunks [1, 2, 3]⟩ :=
  (C6_download_stream ["/f"] (fun _ => some [1, 2, 3]) 0 3 [1, 2, 3]
    (by decide) rfl (by decide)).1

/-- C1: counterexample — with maxDepth 0 the indexer does not recurse into a
subdirectory at all (the subdirectory and its file are absent from the
snapshot), whereas the same tree with maxDepth 2 yields the DirectoryNode;
this contradicts the claim that maxDepth 0 means unlimited recursion. -/
theorem C1_counterexample :
    (shared_directory_list (fun _ => true) 0 1 "/r"
        [FSNode.dir "d" [FSNode.file "f" [1, 2]]] []).1 = []
  ∧ (shared_directory_list (fun _ => true) 2 1 "/r"
        [FSNode.dir "d" [FSNode.file "f" [1, 2]]] []).1
      = [TreeNode.dirNode "d" 1 [TreeNode.fileNode "f" 2 0]] := by
  constructor <;> simp [shared_directory_list]

/-- C1 (amended): when the configured maxDepth is 0 (or negative), the
indexer never descends into subdirectory children at all — no DirectoryNode
is emitted at any depth; a subdirectory is included (as a DirectoryNode,
with recursion at currentDepth+1) only when maxDepth > 0 and
currentDepth < maxDepth. -/
theorem C1_nonpositive_depth_no_dirs (filt : String → Bool) (md : Int)
    (hmd : md ≤ 0) (cd : Int) (dp : String) (children : List FSNode)
    (idx : List String) :
    ∀ t ∈ (shared_directory_list filt md cd dp children idx).1,
      t.isDirNode = false := by
  induction cd, dp, children, idx using shared_directory_list.induct filt md with
  | case1 cd dp idx => simp [shared_directory_list]
  | case2 cd dp name sub rest idx hcond r1 ih1 ih2 =>
    exact absurd hcond.2 (by omega)
  | case3 cd dp name sub rest idx hcond ih =>
    intro t ht
    rw [shared_directory_list, if_neg hcond] at ht
    exact ih t ht
  | case4 cd dp name content rest idx path hfilt idx1 ih =>
    intro t ht
    rw [shared_directory_list] at ht
    split at ht
    · rcases List.mem_cons.mp ht with rfl | ht2
      · rfl
      · exact ih t ht2
    · next hno => exact absurd hfilt hno
  | case5 cd dp name content rest idx path hfilt ih =>
    intro t ht
    rw [shared_directory_list] at ht
    split at ht
    · next hyes => exact absurd hyes hfilt
    · exact ih t ht

/-- Witness for the amended C1: under maxDepth 0 a two-level tree yields
only the matching top-level file node, which indeed is no DirectoryNode. -/
theorem C1_nonpositive_depth_no_dirs_witness :
    TreeNode.isDirNode (TreeNode.fileNode "f" 2 0) = false :=
  C1_nonpositive_depth_no_dirs (fun _ => true) 0 (by decide) 1 "/r"
    [FSNode.dir "d" [FSNode.file "g" [3]], FSNode.file "f" [1, 2]] []
    (TreeNode.fileNode "f" 2 0) (by simp [shared_directory_list])

mutual

/-- Each file leaf contributes exactly one index. -/
theorem fileLeafCount_length : ∀ t : TreeNode,
    fileLeafCount t = (fileLeafIndices t).length
  | TreeNode.fileNode _ _ _ => rfl
  | TreeNode.dirNode _ _ cs => by
    simp [fileLeafCount, fileLeafIndices, fileLeafCountForest_length cs]

/-- Each file leaf of a forest contributes exactly one index. -/
theorem fileLeafCountForest_length : ∀ ts : List TreeNode,
    fileLeafCountForest ts = (fileLeafIndicesForest ts).length
  | [] => rfl
  | t :: ts => by
    simp [fileLeafCountForest, fileLeafIndicesForest, fileLeafCount_length t,
      fileLeafCountForest_length ts]

end

/-- Gluing two adjacent index ranges. -/
theorem range'_glue (a b c : Nat) (hab : a ≤ b) (hbc : b ≤ c) :
    List.range' a (b - a) ++ List.range' b (c - b) = List.range' a (c - a) := by
  have h := List.range'_append a (b - a) (c - b) 1
  simp only [one_mul] at h
  rw [show a + (b - a) = b by omega] at h
  rw [h]
  congr 1
  omega

/-- Prepending the next free index to the following range. -/
theorem range'_cons_glue (a c : Nat) (h : a + 1 ≤ c) :
    a :: List.range' (a + 1) (c - (a + 1)) = List.range' a (c - a) := by
  have hs := List.range'_succ a (c - (a + 1)) 1
  rw [show c - (a + 1) + 1 = c - a by omega] at hs
  rw [hs]

/-- Walking one directory only appends to the index, and the emitted file
leaves carry exactly the freshly appended index positions, in traversal
order. -/
theorem shared_directory_list_leaves (filt : String → Bool) (md : Int)
    (cd : Int) (dp : String) (children : List FSNode) (idx : List String) :
    fileLeafIndicesForest (shared_directory_list filt md cd dp children idx).1
      = List.range' idx.length
          ((shared_directory_list filt md cd dp children idx).2.length - idx.length)
  ∧ idx.length ≤ (shared_directory_list filt md cd dp children idx).2.length := by
  induction cd, dp, children, idx using shared_directory_list.induct filt md with
  | case1 cd dp idx => simp [shared_directory_list, fileLeafIndicesForest]
  | case2 cd dp name sub rest idx hcond r1 ih1 ih2 =>
    have hr1 : r1 = shared_directory_list filt md (cd + 1) (dp ++ "/" ++ name) sub idx :=
      rfl
    rw [shared_directory_list, if_pos hcond, ← hr1]
    dsimp only
    constructor
    · simp only [fileLeafIndicesForest, fileLeafIndices]
      rw [ih1.1, ih2.1]
      exact range'_glue idx.length r1.2.length _ ih1.2 ih2.2
    · exact le_trans ih1.2 ih2.2
  | case3 cd dp name sub rest idx hcond ih =>
    rw [shared_directory_list, if_neg hcond]
    exact ih
  | case4 cd dp name content rest idx path hfilt idx1 ih =>
    have hp : path = dp ++ "/" ++ name := rfl
    have hi : idx1 = idx ++ [path] := rfl
    have hlen : idx1.length = idx.length + 1 := by
      rw [hi]
      simp
    rw [shared_directory_list]
    split
    · next _ =>
      rw [← hp, ← hi]
      dsimp only
      constructor
      · simp only [fileLeafIndicesForest, fileLeafIndices]
        rw [ih.1, hlen]
        simp only [Nat.add_sub_cancel, List.singleton_append]
        exact range'_cons_glue idx.length _ (by rw [← hlen]; exact ih.2)
      · have := ih.2
        omega
    · next hno => exact absurd hfilt hno
  | case5 cd dp name content rest idx path hfilt ih =>
    rw [shared_directory_list]
    split
    · next hyes => exact absurd hyes hfilt
    · exact ih

/-- The share loop preserves the same index/leaf correspondence. -/
theorem shared_files_info_loop_leaves :
    ∀ (shares : List Share) (names : NamesMap) (idx : List String),
      fileLeafIndicesForest (shared_files_info_loop shares names idx).1
        = List.range' idx.length
            ((shared_files_info_loop shares names idx).2.length - idx.length)
      ∧ idx.length ≤ (shared_files_info_loop shares names idx).2.length := by
  intro shares
  induction shares with
  | nil =>
    intro names idx
    simp [shared_files_info_loop, fileLeafIndicesForest]
  | cons sh rest ih =>
    intro names idx
    cases hroot : sh.rootDir with
    | none =>
      rw [shared_files_info_loop, hroot]
      exact ih names idx
    | some children =>
      rw [shared_files_info_loop, hroot]
      dsimp only
      have h1 := shared_directory_list_leaves sh.filt (sh.deep.getD 0) 1 sh.path
        children idx
      have h2 := ih (resolve_name names sh.path sh.name).2
        (shared_directory_list sh.filt (sh.deep.getD 0) 1 sh.path children idx).2
      constructor
      · simp only [fileLeafIndicesForest, fileLeafIndices]
        rw [h1.1, h2.1]
        exact range'_glue idx.length _ _ h1.2 h2.2
      · exact le_trans h1.2 h2.2

/-- C5: after `shared_files_info`, the file leaves of the returned tree
carry exactly the indices 0..n-1 in traversal (= append) order, where n is
the length of the freshly rebuilt `shared_files_index`; in particular the
index length equals the total number of file leaves in the tree. -/
theorem C5_index_matches_leaves (shares : List Share) :
    fileLeafIndicesForest (shared_files_info shares).1
      = List.range ((shared_files_info shares).2.length)
  ∧ fileLeafCountForest (shared_files_info shares).1
      = (shared_files_info shares).2.length := by
  have h := shared_files_info_loop_leaves shares (fun _ => none) []
  have h0 : fileLeafIndicesForest (shared_files_info shares).1
      = List.range ((shared_files_info shares).2.length) := by
    rw [shared_files_info, h.1, List.range_eq_range']
    simp
  refine ⟨h0, ?_⟩
  rw [fileLeafCountForest_length, h0]
  simp

/-- The `names` dict after processing the shares in `prior`: a name that
occurred k+1 times among existing-root shares maps to k, an unseen name is
absent. -/
def mkNames (prior : List Share) : NamesMap := fun n =>
  match countResolved n prior with
  | 0 => none
  | Nat.succ k => some k

/-- Occurrence count after appending one more share. -/
theorem countResolved_append (n : String) (prior : List Share) (sh : Share) :
    countResolved n (prior ++ [sh])
      = countResolved n prior
        + (if sh.rootDir.isSome && decide (resolvedName sh = n) then 1 else 0) := by
  by_cases h : (sh.rootDir.isSome && decide (resolvedName sh = n)) = true
  · simp [countResolved, List.filter_append, List.filter_cons, h]
  · simp [countResolved, List.filter_append, List.filter_cons, h]

/-- A share with a missing root never enters the `names` dict. -/
theorem mkNames_append_skip (prior : List Share) (sh : Share)
    (h : sh.rootDir = none) : mkNames (prior ++ [sh]) = mkNames prior := by
  funext n
  simp [mkNames, countResolved_append, h]

/-- One name-resolution step against the accumulated dict produces exactly
the emitted name predicted by the occurrence count, and advances the dict by
one processed share. -/
theorem resolve_name_step (prior : List Share) (sh : Share)
    (h : sh.rootDir.isSome = true) :
    resolve_name (mkNames prior) sh.path sh.name
      = (emittedName prior sh, mkNames (prior ++ [sh])) := by
  have hu : resolve_name (mkNames prior) sh.path sh.name
      = match mkNames prior (resolvedName sh) with
        | some k =>
          (resolvedName sh ++ " (" ++ toString (k + 1) ++ ")",
           fun s => if s = resolvedName sh then some (k + 1) else mkNames prior s)
        | none =>
          (resolvedName sh,
           fun s => if s = resolvedName sh then some 0 else mkNames prior s) := rfl
  cases hc : countResolved (resolvedName sh) prior with
  | zero =>
    have hm : mkNames prior (resolvedName sh) = none := by simp [mkNames, hc]
    rw [hu, hm]
    simp only [Prod.mk.injEq]
    constructor
    · simp [emittedName, hc]
    · funext s
      by_cases hs : s = resolvedName sh
      · subst hs
        simp [mkNames, countResolved_append, h, hc]
      · simp [hs, mkNames, countResolved_append, h,
          show ¬(resolvedName sh = s) from fun hh => hs hh.symm]
  | succ k =>
    have hm : mkNames prior (resolvedName sh) = some k := by simp [mkNames, hc]
    rw [hu, hm]
    simp only [Prod.mk.injEq]
    constructor
    · simp [emittedName, hc]
    · funext s
      by_cases hs : s = resolvedName sh
      · subst hs
        simp [mkNames, countResolved_append, h, hc]
      · simp [hs, mkNames, countResolved_append, h,
          show ¬(resolvedName sh = s) from fun hh => hs hh.symm]

/-- The catalog loop emits exactly the names predicted by `emittedNames`. -/
theorem shared_files_info_loop_names :
    ∀ (shares prior : List Share) (idx : List String),
      (shared_files_info_loop shares (mkNames prior) idx).1.map TreeNode.nodeName
        = emittedNames prior shares := by
  intro shares
  induction shares with
  | nil => intro prior idx; simp [shared_files_info_loop, emittedNames]
  | cons sh rest ih =>
    intro prior idx
    cases hroot : sh.rootDir with
    | none =>
      rw [shared_files_info_loop, emittedNames, hroot]
      dsimp only
      rw [← mkNames_append_skip prior sh hroot]
      exact ih (prior ++ [sh]) idx
    | some children =>
      rw [shared_files_info_loop, emittedNames, hroot]
      dsimp only
      rw [resolve_name_step prior sh (by simp [hroot])]
      dsimp only
      simp only [List.map_cons, TreeNode.nodeName]
      rw [ih (prior ++ [sh])]

/-- A concrete share whose resolved display name is `Shared` (the config
schema's default share name). -/
def sharedExample : Share :=
  ⟨"/tmp/shared", some "Shared", fun _ => true, some 1, some []⟩

/-- C9: each share's effective display name is its configured name if given,
else the basename of its root path; a share whose resolved name already
occurred k ≥ 1 times among the previously processed shares of the same call
is emitted as `name (k)` (1-based collision counter), otherwise plainly as
`name` — this is `emittedNames`, built from `resolvedName` and the
occurrence count; in particular two shares both resolving to `Shared` yield
nodes named `Shared` and `Shared (1)`. -/
theorem C9_display_names :
    (∀ shares : List Share,
      (shared_files_info shares).1.map TreeNode.nodeName = emittedNames [] shares)
  ∧ (shared_files_info [sharedExample, sharedExample]).1.map TreeNode.nodeName
      = ["Shared", "Shared (1)"] := by
  have hmain : ∀ shares : List Share,
      (shared_files_info shares).1.map TreeNode.nodeName = emittedNames [] shares := by
    intro shares
    rw [shared_files_info,
      show (fun _ => none : NamesMap) = mkNames [] from funext fun s => rfl]
    exact shared_files_info_loop_names shares [] []
  refine ⟨hmain, ?_⟩
  rw [hmain [sharedExample, sharedExample]]
  simp [emittedNames, emittedName, countResolved, resolvedName, sharedExample,
    List.filter]
  decide

end FileTransfer
